import Mathlib

/-!
# Verification of the pattern-catalog file generators

Shallow embedding of the generator scripts of the `design-patterns`
repository: `python/mega_generator.py` (`generate_all`),
`python/generate_final_two.py` (`generate_final_two`),
`python/generate_ultra_final_nine.py` (`generate_all_patterns`),
`python/final_comprehensive_generator.py` (`count_all_patterns`) and
`nodejs/generate_all_142.py` (`filename`, `generate_pattern`, `main`).

The filesystem is modelled as an explicit state: an association list from
relative path to file content, plus the list of existing directories.
Each generator's loop becomes a function from a pattern table and an
initial filesystem to a final filesystem together with its observable
trace (the sequence of writes and of progress lines).  A possible
filesystem write error is modelled by an oracle `bad : String → Bool`
telling which target paths fail on `open`/`write`.
-/

/-- Filesystem state: files as an association list `path ↦ content`
(ordered as on disk, one entry per existing path), and the list of
directories that exist (duplicates are harmless, membership is what
counts). -/
structure FS where
  files : List (String × String)
  dirs : List String

/-- Lookup the content of the file at path `q`, `none` if no such file. -/
def lookupFiles (l : List (String × String)) (q : String) : Option String :=
  (l.find? fun e => e.1 = q).map fun e => e.2

/-- Content of the file at path `q` in filesystem `fs`. -/
def fsLookup (fs : FS) (q : String) : Option String :=
  lookupFiles fs.files q

/-- `open(path, 'w')` followed by `write(content)`: fully overwrite the
entry for `p` if present, else create it (at the end of the listing). -/
def fsWriteFiles : List (String × String) → String → String → List (String × String)
  | [], p, c => [(p, c)]
  | e :: rest, p, c => if e.1 = p then (p, c) :: rest else e :: fsWriteFiles rest p c

/-- Write `content` to file `p` of `fs`, fully overwriting. -/
def fsWrite (fs : FS) (p c : String) : FS :=
  { fs with files := fsWriteFiles fs.files p c }

/-- Split a character list at every `/` (path segmentation). -/
def splitPath : List Char → List (List Char)
  | [] => [[]]
  | ch :: rest =>
    let r := splitPath rest
    if ch = '/' then [] :: r
    else
      match r with
      | [] => [[ch]]
      | s :: ss => (ch :: s) :: ss

/-- Join path segments with `/`. -/
def joinSegs : List (List Char) → List Char
  | [] => []
  | [s] => s
  | s :: rest => s ++ '/' :: joinSegs rest

/-- All proper ancestor directories of a slash-separated relative path, from
outermost to innermost: `ancestors "a/b/c.py" = ["a", "a/b"]`. -/
def ancestors (p : String) : List String :=
  let parts := splitPath p.toList
  (List.range (parts.length - 1)).map fun i => String.mk (joinSegs (parts.take (i + 1)))

/-- The parent directory of a path (`""` for a top-level path). -/
def parentDir (p : String) : String :=
  String.mk (joinSegs ((splitPath p.toList).dropLast))

/-- `full_path.parent.mkdir(parents=True, exist_ok=True)`: record every
ancestor directory of `p` as existing; never an error. -/
def mkdirParents (fs : FS) (p : String) : FS :=
  { fs with dirs := fs.dirs ++ ancestors p }

/-- `os.makedirs(d, exist_ok=True)`: record `d` and its ancestors as
existing; never an error. -/
def makedirs (fs : FS) (d : String) : FS :=
  { fs with dirs := fs.dirs ++ ancestors d ++ [d] }

/-- The one line of progress output printed per materialized entry
(`print(f"✓ {filepath}")`). -/
def progressLine (e : String × String) : String := "✓ " ++ e.1

/-- Outcome of a generator run whose per-entry write is NOT wrapped in
`try/except`: either every entry was written (`ok`), or the first failing
write raised, terminating the run (`err`).  Both carry the final
filesystem, the sequence of performed writes and the emitted progress
lines; `err` also carries the failing path. -/
inductive RunResult where
  | ok (fs : FS) (writes : List (String × String)) (log : List String)
  | err (fs : FS) (writes : List (String × String)) (log : List String) (failed : String)

/-- Final filesystem of a run. -/
def RunResult.fs : RunResult → FS
  | .ok fs _ _ => fs
  | .err fs _ _ _ => fs

/-- Sequence of `(path, content)` writes performed by a run, in order. -/
def RunResult.writes : RunResult → List (String × String)
  | .ok _ w _ => w
  | .err _ w _ _ => w

/-- Sequence of progress lines emitted by a run, in order. -/
def RunResult.log : RunResult → List String
  | .ok _ _ l => l
  | .err _ _ l _ => l

/-- The shared materializer loop of `mega_generator.generate_all`,
`generate_final_two`, `final_comprehensive_generator` and
`ultimate_generator`: for each `(filepath, code)` of the table in order,
`full_path.parent.mkdir(parents=True, exist_ok=True)`, then open/write
(which raises when `bad filepath`, propagating uncaught), then print the
progress line. -/
def materializeFrom (bad : String → Bool) (fs : FS) (writes : List (String × String))
    (log : List String) : List (String × String) → RunResult
  | [] => .ok fs writes log
  | (p, code) :: rest =>
    let fs1 := mkdirParents fs p
    if bad p = true then .err fs1 writes log p
    else materializeFrom bad (fsWrite fs1 p code) (writes ++ [(p, code)])
      (log ++ [progressLine (p, code)]) rest

/-- The cumulative filesystem effect of materializing a table with no
write failures: mkdir the ancestors and overwrite, entry by entry. -/
def applyEntries (fs : FS) (t : List (String × String)) : FS :=
  t.foldl (fun acc e => fsWrite (mkdirParents acc e.1) e.1 e.2) fs

namespace MegaGenerator

/-- `mega_generator.generate_all`: iterate `PATTERNS.items()` (here: the
explicit ordered table), mkdir parents, write, print one line per file.
The banner prints around the loop are not part of the per-file trace. -/
def generate_all (fs : FS) (table : List (String × String)) : RunResult :=
  materializeFrom (fun _ => false) fs [] [] table

end MegaGenerator

/-- `pre` is a prefix of `s` (character-wise). -/
def strStartsWith (pre s : String) : Bool :=
  pre.toList.isPrefixOf s.toList

/-- `suf` is a suffix of `s` (character-wise). -/
def strEndsWith (suf s : String) : Bool :=
  suf.toList.isSuffixOf s.toList

/-- `len(list((BASE / cat).glob("*.py")))` of the Summary Reporter:
if the category directory does not exist the count is zero (the source
checks `cat_path.exists()` before globbing); otherwise count the files
lying directly in that directory whose name ends in `.py`. -/
def count_category (fs : FS) (cat : String) : Nat :=
  if cat ∈ fs.dirs then
    (fs.files.filter fun e => decide (ancestors e.1 = [cat]) && strEndsWith ".py" e.1).length
  else 0

namespace GenerateFinalTwo

/-- The Summary Reporter's hardcoded category list in
`generate_final_two.py` (nine categories, `additional` included). -/
def categories : List String :=
  ["creational", "structural", "behavioral", "concurrency", "architectural",
   "enterprise", "cloud", "microservices", "additional"]

/-- `generate_final_two.py`: materialize the table (mkdir parents + write +
progress line per entry, exceptions propagating), then tally the files per
hardcoded category by re-scanning the filesystem. -/
def generate_final_two (fs : FS) (table : List (String × String)) :
    RunResult × List (String × Nat) :=
  let r := materializeFrom (fun _ => false) fs [] [] table
  (r, categories.map fun c => (c, count_category r.fs c))

end GenerateFinalTwo

namespace FinalComprehensive

/-- The Summary Reporter's hardcoded category list in
`final_comprehensive_generator.py` (eight categories, no `additional`). -/
def categories : List String :=
  ["creational", "structural", "behavioral", "concurrency", "architectural",
   "enterprise", "cloud", "microservices"]

/-- `final_comprehensive_generator.count_all_patterns`: for each hardcoded
category, count the `.py` files in its directory (zero when the directory
does not exist) and report the `(category, count)` pairs. -/
def count_all_patterns (fs : FS) : List (String × Nat) :=
  categories.map fun c => (c, count_category fs c)

end FinalComprehensive

namespace UltraFinalNine

/-- One iteration of the inner loop of
`generate_ultra_final_nine.generate_all_patterns`: build
`filepath = f"{category}/{filename}"`, then `try:` open/write and print the
success line and increment the counter, `except:` print the error line and
continue.  `open(filepath, 'w')` fails when the write oracle says so or
when the parent directory does not exist (the script performs no mkdir). -/
def writeEntry (bad : String → Bool) (st : FS × List String × Nat)
    (category : String) (e : String × String) : FS × List String × Nat :=
  let filepath := category ++ "/" ++ e.1
  if bad filepath = true ∨ parentDir filepath ∉ st.1.dirs then
    (st.1, st.2.1 ++ ["✗ " ++ filepath ++ " - Error"], st.2.2)
  else
    (fsWrite st.1 filepath e.2, st.2.1 ++ [progressLine (filepath, e.2)], st.2.2 + 1)

/-- The inner `for filename, content in pattern_list:` loop over one
category's entries. -/
def innerLoop (bad : String → Bool) (category : String)
    (st : FS × List String × Nat) (l : List (String × String)) :
    FS × List String × Nat :=
  l.foldl (fun st e => writeEntry bad st category e) st

/-- The outer `for category, pattern_list in patterns.items():` loop. -/
def outerLoop (bad : String → Bool) (st : FS × List String × Nat)
    (pats : List (String × List (String × String))) : FS × List String × Nat :=
  pats.foldl (fun st cat => innerLoop bad cat.1 st cat.2) st

/-- `generate_ultra_final_nine.generate_all_patterns`: iterate the
`patterns` dict (`category ↦ list of (filename, content)`) in order, each
entry handled by `writeEntry`; returns the final filesystem, the output
lines (one per entry, success or error) and `total_count`. -/
def generate_all_patterns (bad : String → Bool) (fs : FS)
    (pats : List (String × List (String × String))) : FS × List String × Nat :=
  outerLoop bad (fs, [], 0) pats

/-- Total number of `(filename, content)` entries across all categories of
an ultra-nine pattern table. -/
def totalEntries (pats : List (String × List (String × String))) : Nat :=
  (pats.map fun cat => cat.2.length).sum

end UltraFinalNine

namespace NodeJs

/-- `generate_all_142.filename`: lowercase the pattern title and replace
spaces and slashes by hyphens, then append the fixed `.js` extension. -/
def filename (name : String) : String :=
  ((name.toLower).replace " " "-").replace "/" "-" ++ ".js"

/-- The identifier used inside the generated JavaScript:
`name.replace(' ', '').replace('-', '')`. -/
def njName (name : String) : String :=
  (name.replace " " "").replace "-" ""

/-- The literal JavaScript source produced by `generate_pattern`'s
f-string for a given pattern name and description. -/
def njCode (name description : String) : String :=
  "/**\n * " ++ name ++ " Pattern\n * " ++ description ++ "\n */\n\nclass "
    ++ njName name ++ "Example \x7b\n  constructor() \x7b\n    this.name = \x27"
    ++ name ++ "\x27;\n  \x7d\n\n  demonstrate() \x7b\n    console.log(`Demonstrating "
    ++ name ++ " Pattern`);\n    console.log(`Description: " ++ description
    ++ "`);\n    return `" ++ name ++ " implemented`;\n  \x7d\n\x7d\n\n// Demo\nif (require.main === module) \x7b\n  console.log(\x27=== "
    ++ name ++ " Pattern Demo ===\\n\x27);\n  const example = new " ++ njName name
    ++ "Example();\n  console.log(example.demonstrate());\n  console.log(\x27\\nâœ“ "
    ++ name ++ " pattern works!\x27);\n\x7d\n\nmodule.exports = \x7b " ++ njName name
    ++ "Example \x7d;\n"

/-- `generate_all_142.generate_pattern`: build the code from the template,
`os.makedirs(dir_path, exist_ok=True)` for the category directory, then
write the code to `category/filename(name)`; returns the file path
(paths are taken relative to `nodejs_dir`). -/
def generate_pattern (fs : FS) (category name description : String) : FS × String :=
  let code := njCode name description
  let dir_path := category
  let fs1 := makedirs fs dir_path
  let file_path := dir_path ++ "/" ++ filename name
  (fsWrite fs1 file_path code, file_path)

/-- `counts[category] = counts.get(category, 0) + 1` on a dict modelled as
an association list: bump the existing entry in place, else append a new
entry with count 1. -/
def bumpCount : List (String × Nat) → String → List (String × Nat)
  | [], c => [(c, 1)]
  | e :: rest, c => if e.1 = c then (e.1, e.2 + 1) :: rest else e :: bumpCount rest c

/-- `counts.get(cat, 0)` on the association-list dict. -/
def countsGet (counts : List (String × Nat)) (cat : String) : Nat :=
  ((counts.find? fun e => e.1 = cat).map fun e => e.2).getD 0

/-- One iteration of `main`'s loop: generate the pattern file for one
`(category, name, description)` tuple, bump its category's count and the
running total. -/
def mainStep (st : FS × List (String × Nat) × Nat) (t : String × String × String) :
    FS × List (String × Nat) × Nat :=
  let r := generate_pattern st.1 t.1 t.2.1 t.2.2
  (r.1, bumpCount st.2.1 t.1, st.2.2 + 1)

/-- `generate_all_142.main`: for each `(category, name, description)` tuple
of `PATTERNS` in order, generate the pattern file, bump the per-category
count and the running total; returns the final filesystem, the `counts`
dict and `total` (the SUMMARY prints exactly these). -/
def main (fs : FS) (table : List (String × String × String)) :
    FS × List (String × Nat) × Nat :=
  table.foldl mainStep (fs, [], 0)

/-- The `(path, content)` pair a `PATTERNS` tuple gives rise to. -/
def njEntry (t : String × String × String) : String × String :=
  (t.1 ++ "/" ++ filename t.2.1, njCode t.2.1 t.2.2)

end NodeJs

/-- The content the last table entry with path `p` carries, if any
(iteration order: later entries win). -/
def lastVal : List (String × String) → String → Option String
  | [], _ => none
  | e :: rest, p =>
    match lastVal rest p with
    | some v => some v
    | none => if e.1 = p then some e.2 else none

/-- `orO a b`: `a` if it is `some`, else `b`. -/
def orO (a b : Option String) : Option String :=
  match a with
  | some v => some v
  | none => b

theorem lookupFiles_cons (e : String × String) (l : List (String × String)) (q : String) :
    lookupFiles (e :: l) q = if e.1 = q then some e.2 else lookupFiles l q := by
  by_cases h : e.1 = q <;> simp [lookupFiles, List.find?, h]

theorem lookupFiles_write (l : List (String × String)) (p c q : String) :
    lookupFiles (fsWriteFiles l p c) q = if q = p then some c else lookupFiles l q := by
  induction l with
  | nil =>
    rw [show fsWriteFiles [] p c = [(p, c)] from rfl, lookupFiles_cons]
    by_cases h : q = p
    · simp [h]
    · simp [h, Ne.symm h]
  | cons e rest ih =>
    rw [show fsWriteFiles (e :: rest) p c
        = if e.1 = p then (p, c) :: rest else e :: fsWriteFiles rest p c from rfl]
    by_cases he : e.1 = p
    · rw [if_pos he, lookupFiles_cons, lookupFiles_cons]
      by_cases h : q = p
      · simp [h]
      · have he1 : ¬ e.1 = q := by rw [he]; exact Ne.symm h
        simp [h, Ne.symm h, he1]
    · rw [if_neg he, lookupFiles_cons, lookupFiles_cons, ih]
      by_cases heq : e.1 = q
      · have hqp : ¬ q = p := fun hqp => he (heq.trans hqp)
        simp [heq, hqp]
      · simp [heq]

theorem fsLookup_fsWrite (fs : FS) (p c q : String) :
    fsLookup (fsWrite fs p c) q = if q = p then some c else fsLookup fs q := by
  simp [fsLookup, fsWrite, lookupFiles_write]

theorem fsLookup_mkdirParents (fs : FS) (p q : String) :
    fsLookup (mkdirParents fs p) q = fsLookup fs q := rfl

theorem fsLookup_makedirs (fs : FS) (d q : String) :
    fsLookup (makedirs fs d) q = fsLookup fs q := rfl

theorem fsWrite_dirs (fs : FS) (p c : String) : (fsWrite fs p c).dirs = fs.dirs := rfl

theorem applyEntries_nil (fs : FS) : applyEntries fs [] = fs := rfl

theorem applyEntries_cons (fs : FS) (e : String × String) (t : List (String × String)) :
    applyEntries fs (e :: t) = applyEntries (fsWrite (mkdirParents fs e.1) e.1 e.2) t := rfl

theorem lookup_applyEntries (t : List (String × String)) (fs : FS) (p : String) :
    fsLookup (applyEntries fs t) p = orO (lastVal t p) (fsLookup fs p) := by
  induction t generalizing fs with
  | nil => simp [applyEntries_nil, lastVal, orO]
  | cons e rest ih =>
    rw [applyEntries_cons, ih]
    cases h : lastVal rest p with
    | some v => simp [lastVal, h, orO]
    | none =>
      simp only [lastVal, h, orO, fsLookup_fsWrite, fsLookup_mkdirParents]
      by_cases hq : p = e.1
      · simp [hq]
      · have : ¬ (e.1 = p) := fun hh => hq hh.symm
        simp [hq, this]

theorem lastVal_eq_none_of_not_mem (t : List (String × String)) (p : String)
    (h : p ∉ t.map Prod.fst) : lastVal t p = none := by
  induction t with
  | nil => rfl
  | cons e rest ih =>
    simp only [List.map_cons, List.mem_cons] at h
    push_neg at h
    rw [lastVal, ih h.2]
    simp [Ne.symm h.1]

theorem lastVal_of_nodup (t : List (String × String)) (p c : String)
    (hnd : (t.map Prod.fst).Nodup) (hmem : (p, c) ∈ t) : lastVal t p = some c := by
  induction t with
  | nil => cases hmem
  | cons e rest ih =>
    simp only [List.map_cons, List.nodup_cons] at hnd
    rcases List.mem_cons.mp hmem with h | h
    · have hpe : e.1 = p := by rw [← h]
      have : p ∉ rest.map Prod.fst := by rw [← hpe]; exact hnd.1
      rw [lastVal, lastVal_eq_none_of_not_mem rest p this]
      simp [hpe, ← h]
    · rw [lastVal, ih hnd.2 h]

theorem lastVal_append (a b : List (String × String)) (p : String) :
    lastVal (a ++ b) p = orO (lastVal b p) (lastVal a p) := by
  induction a with
  | nil =>
    cases h : lastVal b p <;> simp [lastVal, orO, h]
  | cons e rest ih =>
    rw [List.cons_append, lastVal, ih]
    cases hb : lastVal b p with
    | some v => simp [orO, lastVal]
    | none => simp [orO, lastVal]

theorem run_ok (bad : String → Bool) (t : List (String × String)) :
    ∀ (fs : FS) (w : List (String × String)) (l : List String),
    (∀ e ∈ t, bad e.1 = false) →
    materializeFrom bad fs w l t
      = .ok (applyEntries fs t) (w ++ t) (l ++ t.map progressLine) := by
  induction t with
  | nil => intro fs w l _; simp [materializeFrom, applyEntries_nil]
  | cons e rest ih =>
    intro fs w l h
    obtain ⟨p, code⟩ := e
    have hb : bad p = false := h (p, code) (List.mem_cons_self _ _)
    rw [materializeFrom]
    simp only [hb, Bool.false_eq_true, if_false]
    rw [ih _ _ _ fun x hx => h x (List.mem_cons_of_mem _ hx)]
    simp [applyEntries_cons, List.append_assoc]

theorem run_err (bad : String → Bool) (pre : List (String × String)) :
    ∀ (fs : FS) (w : List (String × String)) (l : List String) (p c : String)
      (post : List (String × String)),
    (∀ e ∈ pre, bad e.1 = false) → bad p = true →
    materializeFrom bad fs w l (pre ++ (p, c) :: post)
      = .err (mkdirParents (applyEntries fs pre) p) (w ++ pre)
          (l ++ pre.map progressLine) p := by
  induction pre with
  | nil =>
    intro fs w l p c post _ hb
    simp [materializeFrom, hb, applyEntries_nil]
  | cons e rest ih =>
    intro fs w l p c post h hb
    obtain ⟨q, code⟩ := e
    have hq : bad q = false := h (q, code) (List.mem_cons_self _ _)
    rw [List.cons_append, materializeFrom]
    simp only [hq, Bool.false_eq_true, if_false]
    rw [ih _ _ _ _ _ _ (fun x hx => h x (List.mem_cons_of_mem _ hx)) hb]
    simp [applyEntries_cons, List.append_assoc]

theorem mem_dirs_applyEntries (t : List (String × String)) :
    ∀ (fs : FS) (d : String),
    d ∈ (applyEntries fs t).dirs ↔ d ∈ fs.dirs ∨ ∃ e ∈ t, d ∈ ancestors e.1 := by
  induction t with
  | nil => intro fs d; simp [applyEntries_nil]
  | cons e rest ih =>
    intro fs d
    rw [applyEntries_cons, ih]
    have hdirs : (fsWrite (mkdirParents fs e.1) e.1 e.2).dirs
        = fs.dirs ++ ancestors e.1 := rfl
    rw [hdirs]
    simp only [List.mem_append, List.mem_cons, or_assoc]
    constructor
    · rintro (h | h | ⟨x, hx, hx2⟩)
      · exact Or.inl h
      · exact Or.inr ⟨e, Or.inl rfl, h⟩
      · exact Or.inr ⟨x, Or.inr hx, hx2⟩
    · rintro (h | ⟨x, hx | hx, hx2⟩)
      · exact Or.inl h
      · subst hx; exact Or.inr (Or.inl hx2)
      · exact Or.inr (Or.inr ⟨x, hx, hx2⟩)

theorem fsWriteFiles_fresh (p c : String) (l : List (String × String))
    (h : ∀ e ∈ l, ¬ e.1 = p) : fsWriteFiles l p c = l ++ [(p, c)] := by
  induction l with
  | nil => rfl
  | cons e rest ih =>
    rw [show fsWriteFiles (e :: rest) p c
        = if e.1 = p then (p, c) :: rest else e :: fsWriteFiles rest p c from rfl]
    rw [if_neg (h e (List.mem_cons_self _ _)),
      ih fun x hx => h x (List.mem_cons_of_mem _ hx)]
    rfl

theorem files_applyEntries_fresh (t : List (String × String)) :
    ∀ (fs : FS), (t.map Prod.fst).Nodup →
    (∀ e ∈ t, ∀ f ∈ fs.files, ¬ f.1 = e.1) →
    (applyEntries fs t).files = fs.files ++ t := by
  induction t with
  | nil => intro fs _ _; simp [applyEntries_nil]
  | cons e rest ih =>
    intro fs hnd hfresh
    simp only [List.map_cons, List.nodup_cons] at hnd
    rw [applyEntries_cons]
    have hfiles : (fsWrite (mkdirParents fs e.1) e.1 e.2).files = fs.files ++ [e] := by
      show fsWriteFiles fs.files e.1 e.2 = fs.files ++ [e]
      rw [fsWriteFiles_fresh _ _ _ fun f hf => hfresh e (List.mem_cons_self _ _) f hf]
    have hfresh2 : ∀ x ∈ rest, ∀ f ∈ (fsWrite (mkdirParents fs e.1) e.1 e.2).files,
        ¬ f.1 = x.1 := by
      intro x hx f hf
      rw [hfiles] at hf
      rcases List.mem_append.mp hf with hf | hf
      · exact hfresh x (List.mem_cons_of_mem _ hx) f hf
      · have : f = e := by simpa using hf
        subst this
        intro hc
        exact hnd.1 (hc ▸ List.mem_map_of_mem Prod.fst hx)
    rw [ih _ hnd.2 hfresh2, hfiles]
    simp

theorem writeEntry_dirs (bad : String → Bool) (st : FS × List String × Nat)
    (cat : String) (e : String × String) :
    (UltraFinalNine.writeEntry bad st cat e).1.dirs = st.1.dirs := by
  simp only [UltraFinalNine.writeEntry]
  split <;> rfl

theorem writeEntry_log_length (bad : String → Bool) (st : FS × List String × Nat)
    (cat : String) (e : String × String) :
    (UltraFinalNine.writeEntry bad st cat e).2.1.length = st.2.1.length + 1 := by
  simp only [UltraFinalNine.writeEntry]
  split <;> simp

theorem innerLoop_dirs (bad : String → Bool) (cat : String) (l : List (String × String)) :
    ∀ st : FS × List String × Nat,
    (UltraFinalNine.innerLoop bad cat st l).1.dirs = st.1.dirs := by
  induction l with
  | nil => intro st; rfl
  | cons e rest ih =>
    intro st
    show (UltraFinalNine.innerLoop bad cat (UltraFinalNine.writeEntry bad st cat e) rest).1.dirs
      = st.1.dirs
    rw [ih, writeEntry_dirs]

theorem innerLoop_log_length (bad : String → Bool) (cat : String)
    (l : List (String × String)) :
    ∀ st : FS × List String × Nat,
    (UltraFinalNine.innerLoop bad cat st l).2.1.length = st.2.1.length + l.length := by
  induction l with
  | nil => intro st; rfl
  | cons e rest ih =>
    intro st
    show (UltraFinalNine.innerLoop bad cat (UltraFinalNine.writeEntry bad st cat e) rest).2.1.length
      = st.2.1.length + (e :: rest).length
    rw [ih, writeEntry_log_length]
    simp only [List.length_cons]
    omega

theorem outerLoop_dirs (bad : String → Bool)
    (pats : List (String × List (String × String))) :
    ∀ st : FS × List String × Nat,
    (UltraFinalNine.outerLoop bad st pats).1.dirs = st.1.dirs := by
  induction pats with
  | nil => intro st; rfl
  | cons c rest ih =>
    intro st
    show (UltraFinalNine.outerLoop bad (UltraFinalNine.innerLoop bad c.1 st c.2) rest).1.dirs
      = st.1.dirs
    rw [ih, innerLoop_dirs]

theorem outerLoop_log_length (bad : String → Bool)
    (pats : List (String × List (String × String))) :
    ∀ st : FS × List String × Nat,
    (UltraFinalNine.outerLoop bad st pats).2.1.length
      = st.2.1.length + UltraFinalNine.totalEntries pats := by
  induction pats with
  | nil => intro st; simp [UltraFinalNine.outerLoop, UltraFinalNine.totalEntries]
  | cons c rest ih =>
    intro st
    show (UltraFinalNine.outerLoop bad (UltraFinalNine.innerLoop bad c.1 st c.2) rest).2.1.length
      = st.2.1.length + UltraFinalNine.totalEntries (c :: rest)
    rw [ih, innerLoop_log_length]
    simp only [UltraFinalNine.totalEntries, List.map_cons, List.sum_cons]
    omega

theorem generate_all_patterns_dirs (bad : String → Bool) (fs : FS)
    (pats : List (String × List (String × String))) :
    (UltraFinalNine.generate_all_patterns bad fs pats).1.dirs = fs.dirs :=
  outerLoop_dirs bad pats (fs, [], 0)

theorem generate_all_patterns_log_length (bad : String → Bool) (fs : FS)
    (pats : List (String × List (String × String))) :
    (UltraFinalNine.generate_all_patterns bad fs pats).2.1.length
      = UltraFinalNine.totalEntries pats := by
  have := outerLoop_log_length bad pats (fs, [], 0)
  simpa [UltraFinalNine.generate_all_patterns] using this

theorem countsGet_bump (l : List (String × Nat)) (c cat : String) :
    NodeJs.countsGet (NodeJs.bumpCount l c) cat
      = NodeJs.countsGet l cat + if cat = c then 1 else 0 := by
  induction l with
  | nil =>
    by_cases h : cat = c
    · subst h; simp [NodeJs.bumpCount, NodeJs.countsGet, List.find?]
    · simp [NodeJs.bumpCount, NodeJs.countsGet, List.find?, h, Ne.symm h]
  | cons e rest ih =>
    rw [show NodeJs.bumpCount (e :: rest) c
        = if e.1 = c then (e.1, e.2 + 1) :: rest else e :: NodeJs.bumpCount rest c from rfl]
    by_cases he : e.1 = c
    · rw [if_pos he]
      by_cases h : cat = c
      · have he2 : e.1 = cat := by rw [he, h]
        simp [NodeJs.countsGet, List.find?, he2, h]
      · have he2 : ¬ e.1 = cat := by rw [he]; exact Ne.symm h
        simp [NodeJs.countsGet, List.find?, he2, h]
    · rw [if_neg he]
      by_cases heq : e.1 = cat
      · have h : ¬ cat = c := fun hc => he (by rw [heq, hc])
        simp [NodeJs.countsGet, List.find?, heq, h]
      · simp only [NodeJs.countsGet, List.find?] at ih ⊢
        simp [heq, ih]

theorem mainStep_snd (st : FS × List (String × Nat) × Nat) (t : String × String × String) :
    (NodeJs.mainStep st t).2 = (NodeJs.bumpCount st.2.1 t.1, st.2.2 + 1) := rfl

theorem nodejs_fold_counts (table : List (String × String × String)) (cat : String) :
    ∀ st : FS × List (String × Nat) × Nat,
    NodeJs.countsGet (table.foldl NodeJs.mainStep st).2.1 cat
      = NodeJs.countsGet st.2.1 cat + (table.filter fun t => t.1 = cat).length := by
  induction table with
  | nil => intro st; simp
  | cons t rest ih =>
    intro st
    rw [List.foldl_cons, ih]
    have : (NodeJs.mainStep st t).2.1 = NodeJs.bumpCount st.2.1 t.1 := rfl
    rw [this, countsGet_bump]
    by_cases h : t.1 = cat
    · simp only [List.filter_cons, h]
      simp [h, List.length_cons]
      omega
    · have h2 : ¬ cat = t.1 := fun hc => h hc.symm
      simp only [List.filter_cons]
      simp [h, h2]

theorem nodejs_fold_total (table : List (String × String × String)) :
    ∀ st : FS × List (String × Nat) × Nat,
    (table.foldl NodeJs.mainStep st).2.2 = st.2.2 + table.length := by
  induction table with
  | nil => intro st; simp
  | cons t rest ih =>
    intro st
    rw [List.foldl_cons, ih]
    have : (NodeJs.mainStep st t).2.2 = st.2.2 + 1 := rfl
    rw [this]
    simp only [List.length_cons]
    omega

theorem nodejs_fold_snd_indep (table : List (String × String × String)) :
    ∀ st1 st2 : FS × List (String × Nat) × Nat, st1.2 = st2.2 →
    (table.foldl NodeJs.mainStep st1).2 = (table.foldl NodeJs.mainStep st2).2 := by
  induction table with
  | nil => intro st1 st2 h; simpa using h
  | cons t rest ih =>
    intro st1 st2 h
    rw [List.foldl_cons, List.foldl_cons]
    apply ih
    rw [mainStep_snd, mainStep_snd, h]

theorem nodejs_fold_lookup (table : List (String × String × String)) (p : String) :
    ∀ st : FS × List (String × Nat) × Nat,
    fsLookup (table.foldl NodeJs.mainStep st).1 p
      = orO (lastVal (table.map NodeJs.njEntry) p) (fsLookup st.1 p) := by
  induction table with
  | nil => intro st; simp [lastVal, orO]
  | cons t rest ih =>
    intro st
    rw [List.foldl_cons, ih]
    have hfs : (NodeJs.mainStep st t).1
        = fsWrite (makedirs st.1 t.1) (NodeJs.njEntry t).1 (NodeJs.njEntry t).2 := rfl
    rw [hfs]
    cases h : lastVal (rest.map NodeJs.njEntry) p with
    | some v => simp [List.map_cons, lastVal, h, orO]
    | none =>
      simp only [List.map_cons, lastVal, h, orO, fsLookup_fsWrite, fsLookup_makedirs]
      by_cases hq : p = (NodeJs.njEntry t).1
      · simp [hq]
      · have : ¬ (NodeJs.njEntry t).1 = p := fun hh => hq hh.symm
        simp [hq, this]

theorem generate_all_eq (fs : FS) (t : List (String × String)) :
    MegaGenerator.generate_all fs t = .ok (applyEntries fs t) t (t.map progressLine) := by
  have := run_ok (fun _ => false) t fs [] [] fun e _ => rfl
  simpa [MegaGenerator.generate_all] using this

/-- C1 (Completeness of materialization): after the materializer loop of
`mega_generator.generate_all` / `generate_final_two` runs to completion
over a pattern table whose relative paths are distinct (the spec's
`CatalogEntry` invariant — the Python tables are dict literals, so their
keys are unique), every `(relative_path, content)` entry of the table is
present in the resulting filesystem with exactly that content. -/
theorem C1_completeness (fs : FS) (t : List (String × String)) (p c : String)
    (hnd : (t.map Prod.fst).Nodup) (hmem : (p, c) ∈ t) :
    fsLookup (MegaGenerator.generate_all fs t).fs p = some c := by
  rw [generate_all_eq]
  show fsLookup (applyEntries fs t) p = some c
  rw [lookup_applyEntries, lastVal_of_nodup t p c hnd hmem]
  rfl

/-- Witness for C1 at the spec's own example scenario: a two-entry table
materialized into an empty base directory. -/
theorem C1_completeness_witness :
    fsLookup (MegaGenerator.generate_all (FS.mk [] [])
      [("creational/singleton_pattern.py", "code A"),
       ("structural/adapter_pattern.py", "code B")]).fs
      "creational/singleton_pattern.py" = some "code A" :=
  C1_completeness _ _ _ _ (by decide) (by decide)

/-- C5 (Idempotence): running the materializer twice over the same table
yields, for EVERY path (those of the table included), file contents
identical to a single run, because each write fully overwrites. -/
theorem C5_idempotence (fs : FS) (t : List (String × String)) (p : String) :
    fsLookup (MegaGenerator.generate_all (MegaGenerator.generate_all fs t).fs t).fs p
      = fsLookup (MegaGenerator.generate_all fs t).fs p := by
  simp only [generate_all_eq, RunResult.fs]
  rw [lookup_applyEntries, lookup_applyEntries]
  cases h : lastVal t p <;> simp [orO, h]

/-- C6 (Collision last-write-wins): if the table contains two entries with
the same relative path and different contents, the final content at that
path is the content of the last such entry in iteration order. -/
theorem C6_last_write_wins (fs : FS) (t1 t2 t3 : List (String × String))
    (p c1 c2 : String) (hne : c1 ≠ c2) (hlast : p ∉ t3.map Prod.fst) :
    fsLookup (MegaGenerator.generate_all fs (t1 ++ (p, c1) :: t2 ++ (p, c2) :: t3)).fs p
      = some c2 := by
  simp only [generate_all_eq, RunResult.fs]
  rw [lookup_applyEntries]
  have h3 : lastVal t3 p = none := lastVal_eq_none_of_not_mem t3 p hlast
  have h23 : lastVal ((p, c2) :: t3) p = some c2 := by rw [lastVal, h3]; simp
  rw [lastVal_append, h23]
  rfl

/-- Witness for C6: a duplicate path written with `"old"` then `"new"`
ends up holding `"new"`. -/
theorem C6_last_write_wins_witness :
    fsLookup (MegaGenerator.generate_all (FS.mk [] [])
      ([] ++ ("cloud/x.py", "old") :: [] ++ ("cloud/x.py", "new") :: [])).fs "cloud/x.py"
      = some "new" :=
  C6_last_write_wins _ _ _ _ _ _ _ (by decide) (by decide)

/-- C8 (Strict sequential ordering): the materializer is a single
sequential loop; the sequence of writes it performs and the sequence of
progress lines it emits (one per entry, naming the path written) both
equal the table's entry sequence. -/
theorem C8_sequential_order (fs : FS) (t : List (String × String)) :
    (MegaGenerator.generate_all fs t).writes = t
      ∧ (MegaGenerator.generate_all fs t).log = t.map progressLine := by
  simp [generate_all_eq, RunResult.writes, RunResult.log]

/-- Counterexample to C2 as stated: the claim quantifies over EVERY
generator script, but `generate_ultra_final_nine.generate_all_patterns`
wraps each write in `try/except`.  On a concrete two-entry table whose
first write fails, the run does not terminate: it prints an error line,
continues, successfully writes the second entry (`total_count = 1`) and
returns normally (exit status 0), contradicting "the exception propagates
uncaught … the process terminates". -/
theorem C2_counterexample :
    (UltraFinalNine.generate_all_patterns (fun q => decide (q = "additional/a.py"))
        (FS.mk [] ["additional"]) [("additional", [("a.py", "A"), ("b.py", "B")])]).2.2 = 1
    ∧ fsLookup (UltraFinalNine.generate_all_patterns (fun q => decide (q = "additional/a.py"))
        (FS.mk [] ["additional"]) [("additional", [("a.py", "A"), ("b.py", "B")])]).1
        "additional/b.py" = some "B"
    ∧ (UltraFinalNine.generate_all_patterns (fun q => decide (q = "additional/a.py"))
        (FS.mk [] ["additional"]) [("additional", [("a.py", "A"), ("b.py", "B")])]).2.1
        = ["✗ additional/a.py - Error", "✓ additional/b.py"] := by
  exact ⟨rfl, rfl, rfl⟩

/-- C2 amended: in the generators whose write loop has no `try/except`
(`mega_generator`, `generate_final_two`, `final_comprehensive_generator`,
`ultimate_generator` — the `materializeFrom` loop), the first failing
write raises and terminates the run at that entry: the run result is an
error carrying the failing path, exactly the earlier entries were written
(their files remain intact, no rollback, no retry) and no later entry is
processed.  `generate_ultra_final_nine` instead catches the per-entry
exception and continues: its run always emits one output line per table
entry, never terminating early. -/
theorem C2_amended (bad : String → Bool) (fs : FS) (pre post : List (String × String))
    (p c : String) (hpre : ∀ e ∈ pre, bad e.1 = false) (hbad : bad p = true)
    (hnd : (pre.map Prod.fst).Nodup) :
    materializeFrom bad fs [] [] (pre ++ (p, c) :: post)
      = .err (mkdirParents (applyEntries fs pre) p) pre (pre.map progressLine) p
    ∧ (∀ q d, (q, d) ∈ pre →
        fsLookup (mkdirParents (applyEntries fs pre) p) q = some d)
    ∧ ∀ pats, (UltraFinalNine.generate_all_patterns bad fs pats).2.1.length
        = UltraFinalNine.totalEntries pats := by
  refine ⟨?_, ?_, fun pats => generate_all_patterns_log_length bad fs pats⟩
  · have := run_err bad pre fs [] [] p c post hpre hbad
    simpa using this
  · intro q d hqd
    rw [fsLookup_mkdirParents, lookup_applyEntries, lastVal_of_nodup pre q d hnd hqd]
    rfl

/-- Witness for C2 amended: a concrete run in which the second write
fails; the first entry's file survives, the third is never written. -/
theorem C2_amended_witness :
    materializeFrom (fun q => decide (q = "cloud/bad.py")) (FS.mk [] []) [] []
        ([("creational/a.py", "A")] ++ ("cloud/bad.py", "C") :: [("structural/b.py", "B")])
      = .err (mkdirParents (applyEntries (FS.mk [] []) [("creational/a.py", "A")]) "cloud/bad.py")
          [("creational/a.py", "A")] ([("creational/a.py", "A")].map progressLine) "cloud/bad.py"
    ∧ (∀ q d, (q, d) ∈ [("creational/a.py", "A")] →
        fsLookup (mkdirParents (applyEntries (FS.mk [] []) [("creational/a.py", "A")])
          "cloud/bad.py") q = some d)
    ∧ ∀ pats, (UltraFinalNine.generate_all_patterns (fun q => decide (q = "cloud/bad.py"))
          (FS.mk [] []) pats).2.1.length = UltraFinalNine.totalEntries pats :=
  C2_amended _ _ _ _ _ _ (by decide) (by decide) (by decide)

/-- Counterexample to C3 as stated: the claim says the materializer
creates all missing ancestor directories for every entry, so that a run
against a base directory with no category subdirectories succeeds.  But
`generate_ultra_final_nine.generate_all_patterns` performs no `mkdir` at
all: on an empty base directory its only entry's `open` fails (the error
is caught and logged), no directory is created, no file is written and
`total_count` stays 0. -/
theorem C3_counterexample :
    (UltraFinalNine.generate_all_patterns (fun _ => false) (FS.mk [] [])
        [("additional", [("interceptor_pattern.py", "CODE")])]).1.dirs = []
    ∧ fsLookup (UltraFinalNine.generate_all_patterns (fun _ => false) (FS.mk [] [])
        [("additional", [("interceptor_pattern.py", "CODE")])]).1
        "additional/interceptor_pattern.py" = none
    ∧ (UltraFinalNine.generate_all_patterns (fun _ => false) (FS.mk [] [])
        [("additional", [("interceptor_pattern.py", "CODE")])]).2.2 = 0 := by
  exact ⟨rfl, rfl, rfl⟩

/-- C3 amended: the `mkdir(parents=True, exist_ok=True)` generators
(`mega_generator`, `generate_final_two`, `final_comprehensive_generator`)
create, for every entry, all missing ancestor directories before writing,
with no error when they already exist: on any base directory the run
succeeds and the resulting directories are exactly the pre-existing ones
plus the ancestors implied by the table's paths.
`generate_ultra_final_nine` creates no directories at all and relies on
the category directories pre-existing. -/
theorem C3_amended (fs : FS) (t : List (String × String)) :
    (MegaGenerator.generate_all fs t = .ok (applyEntries fs t) t (t.map progressLine)
      ∧ ∀ d : String, d ∈ (applyEntries fs t).dirs
          ↔ d ∈ fs.dirs ∨ ∃ e ∈ t, d ∈ ancestors e.1)
    ∧ ∀ (bad : String → Bool) (pats : List (String × List (String × String))),
        (UltraFinalNine.generate_all_patterns bad fs pats).1.dirs = fs.dirs :=
  ⟨⟨generate_all_eq fs t, fun d => mem_dirs_applyEntries t fs d⟩,
    fun bad pats => generate_all_patterns_dirs bad fs pats⟩

theorem filter_congr_list {α : Type} (l : List α) (f g : α → Bool)
    (h : ∀ a ∈ l, f a = g a) : l.filter f = l.filter g := by
  induction l with
  | nil => rfl
  | cons a rest ih =>
    rw [List.filter_cons, List.filter_cons,
      h a (List.mem_cons_self _ _), ih fun x hx => h x (List.mem_cons_of_mem _ hx)]

/-- C4 (Tally correctness): for a table with distinct paths containing
`k` entries under the category directory `"cloud"` (in this repository,
such entries are direct children of `cloud/` named `*.py` — the
hypothesis `hshape`), materialized by `generate_final_two` into a base
directory with no pre-existing files, the Summary Reporter's tally
contains `("cloud", k)`. -/
theorem C4_tally (fs : FS) (t : List (String × String)) (k : Nat)
    (hfiles : fs.files = [])
    (hnd : (t.map Prod.fst).Nodup)
    (hshape : ∀ e ∈ t, strStartsWith "cloud/" e.1
        = (decide (ancestors e.1 = ["cloud"]) && strEndsWith ".py" e.1))
    (hk : (t.filter fun e => strStartsWith "cloud/" e.1).length = k) :
    ("cloud", k) ∈ (GenerateFinalTwo.generate_final_two fs t).2 := by
  have hrun := run_ok (fun _ => false) t fs [] [] fun e _ => rfl
  have hfile2 : (applyEntries fs t).files = t := by
    rw [files_applyEntries_fresh t fs hnd ?fresh, hfiles]
    · rfl
    case fresh =>
      intro e _ f hf
      rw [hfiles] at hf
      cases hf
  have hfilter : (t.filter fun e =>
        decide (ancestors e.1 = ["cloud"]) && strEndsWith ".py" e.1).length = k := by
    rw [filter_congr_list t _ _ fun a ha => (hshape a ha).symm, hk]
  have hcount : count_category (applyEntries fs t) "cloud" = k := by
    by_cases hdir : "cloud" ∈ (applyEntries fs t).dirs
    · rw [count_category, if_pos hdir, hfile2, hfilter]
    · rw [count_category, if_neg hdir]
      by_contra hk0
      have hkpos : 0 < k := Nat.pos_of_ne_zero fun h => hk0 h.symm
      rw [← hk] at hkpos
      have hne : t.filter (fun e => strStartsWith "cloud/" e.1) ≠ [] := by
        intro hnil
        rw [hnil] at hkpos
        exact Nat.lt_irrefl 0 hkpos
      obtain ⟨e, he⟩ := List.exists_mem_of_ne_nil _ hne
      have he2 := List.mem_filter.mp he
      have hsh := hshape e he2.1
      rw [he2.2] at hsh
      have hanc : ancestors e.1 = ["cloud"] := by
        have h2 := hsh.symm
        simp only [Bool.and_eq_true, decide_eq_true_eq] at h2
        exact h2.1
      exact hdir ((mem_dirs_applyEntries t fs "cloud").mpr
        (Or.inr ⟨e, he2.1, by rw [hanc]; exact List.mem_singleton.mpr rfl⟩))
  show ("cloud", k) ∈ GenerateFinalTwo.categories.map
    fun cc => (cc, count_category (materializeFrom (fun _ => false) fs [] [] t).fs cc)
  rw [hrun]
  exact List.mem_map.mpr ⟨"cloud", by decide, by
    show ("cloud", count_category (applyEntries fs t) "cloud") = ("cloud", k)
    rw [hcount]⟩

/-- Witness for C4: a two-entry table with one `cloud/` entry
materialized into an empty base directory reports `("cloud", 1)`. -/
theorem C4_tally_witness :
    ("cloud", 1) ∈ (GenerateFinalTwo.generate_final_two (FS.mk [] [])
      [("cloud/publisher_subscriber_pattern.py", "PS"), ("creational/b.py", "B")]).2 :=
  C4_tally _ _ _ (by decide) (by decide) (by decide) (by decide)

/-- C7 (Missing category directory is zero, not an error): for every
category of the Summary Reporter's hardcoded list whose directory does
not exist, the reporter counts zero for it (the existence check comes
before globbing; `count_category` is total, so no exception can arise). -/
theorem C7_missing_category_zero (fs : FS) (cat : String)
    (h1 : cat ∈ FinalComprehensive.categories) (h2 : cat ∉ fs.dirs) :
    count_category fs cat = 0
      ∧ (cat, 0) ∈ FinalComprehensive.count_all_patterns fs := by
  have hc : count_category fs cat = 0 := by rw [count_category, if_neg h2]
  exact ⟨hc, List.mem_map.mpr ⟨cat, h1, by rw [hc]⟩⟩

/-- Witness for C7: a filesystem holding one `creational` file but no
`cloud` directory reports `("cloud", 0)`. -/
theorem C7_missing_category_zero_witness :
    count_category (FS.mk [("creational/x.py", "X")] ["creational"]) "cloud" = 0
      ∧ ("cloud", 0) ∈ FinalComprehensive.count_all_patterns
          (FS.mk [("creational/x.py", "X")] ["creational"]) :=
  C7_missing_category_zero _ _ (by decide) (by decide)

/-- C9 (Filename normalization): for every `(category, name, description)`
tuple of the Node.js generator's table (with the derived output paths
distinct — one file per pattern), `main` places the generated file at
`category/filename(name)` with the template's code, where
`filename(name)` is the lowercased title with spaces and slashes replaced
by hyphens plus the fixed `.js` extension. -/
theorem C9_filename (fs : FS) (table : List (String × String × String))
    (cat name desc : String)
    (hmem : (cat, name, desc) ∈ table)
    (hnd : (table.map fun t => t.1 ++ "/" ++ NodeJs.filename t.2.1).Nodup) :
    NodeJs.filename name = ((name.toLower).replace " " "-").replace "/" "-" ++ ".js"
    ∧ fsLookup (NodeJs.main fs table).1 (cat ++ "/" ++ NodeJs.filename name)
        = some (NodeJs.njCode name desc) := by
  refine ⟨rfl, ?_⟩
  have hmap : (table.map NodeJs.njEntry).map Prod.fst
      = table.map fun t => t.1 ++ "/" ++ NodeJs.filename t.2.1 := by
    rw [List.map_map]; rfl
  have hnd2 : ((table.map NodeJs.njEntry).map Prod.fst).Nodup := by
    rw [hmap]; exact hnd
  have hmem2 : (cat ++ "/" ++ NodeJs.filename name, NodeJs.njCode name desc)
      ∈ table.map NodeJs.njEntry :=
    List.mem_map.mpr ⟨(cat, name, desc), hmem, rfl⟩
  show fsLookup (table.foldl NodeJs.mainStep (fs, [], 0)).1 _ = _
  rw [nodejs_fold_lookup, lastVal_of_nodup _ _ _ hnd2 hmem2]
  rfl

/-- Witness for C9 at a one-pattern table. -/
theorem C9_filename_witness :
    NodeJs.filename "Factory Method"
        = (("Factory Method".toLower).replace " " "-").replace "/" "-" ++ ".js"
    ∧ fsLookup (NodeJs.main (FS.mk [] [])
          [("creational", "Factory Method", "Creates objects through factory methods")]).1
        ("creational" ++ "/" ++ NodeJs.filename "Factory Method")
        = some (NodeJs.njCode "Factory Method" "Creates objects through factory methods") :=
  C9_filename _ _ _ _ _ (by decide) (by simp)

/-- C10 (Implicit — SUMMARY counts come from the table alone): the
per-category counts and TOTAL printed by the Node.js generator's `main`
are computed solely from the `PATTERNS` table, one increment per tuple:
each category's reported count is the number of tuples carrying that
category, TOTAL is the table's length, and the whole counts/total state
is independent of whatever files pre-exist on disk. -/
theorem C10_summary_counts (fs : FS) (table : List (String × String × String))
    (cat : String) :
    (NodeJs.main fs table).2.2 = table.length
    ∧ NodeJs.countsGet (NodeJs.main fs table).2.1 cat
        = (table.filter fun t => t.1 = cat).length
    ∧ (NodeJs.main fs table).2 = (NodeJs.main (FS.mk [] []) table).2 := by
  refine ⟨?_, ?_, ?_⟩
  · have := nodejs_fold_total table (fs, [], 0)
    simpa [NodeJs.main] using this
  · have := nodejs_fold_counts table cat (fs, [], 0)
    simpa [NodeJs.main, NodeJs.countsGet, List.find?] using this
  · exact nodejs_fold_snd_indep table (fs, [], 0) (FS.mk [] [], [], 0) rfl
